import Mathlib

/-!
Verification development for the Google-SERP filtered external-link
extractor (`src/app.py`).  The source is shallowly embedded: strings are
`List Char`, network and HTML parsing are abstracted to explicit inputs
(a stub of attempt outcomes for the fetcher, the list of anchor `href`
attributes for a fetched page), and Python exceptions are threaded
explicitly as `Except` values or truncation flags.
-/

/-- Characters allowed in a URL scheme by CPython `urllib.parse`
(`scheme_chars`): ASCII letters, digits, and `+`, `-`, `.`. -/
def isSchemeChar (c : Char) : Bool :=
  c.isAlpha || c.isDigit || c == '+' || c == '-' || c == '.'

/-- Result of CPython `urlparse` (`ParseResult`) as used by `src/app.py`:
scheme, network location, path, params, query and fragment.  Params,
query and fragment are plain (possibly empty) strings exactly as in
CPython, whose `geturl` re-attaches the `;`, `?` and `#` markers only
when the component is non-empty — so a trailing bare marker is dropped on
re-serialization, as in the original. -/
structure UrlParts where
  scheme : List Char
  netloc : List Char
  path : List Char
  params : List Char
  query : List Char
  fragment : List Char
deriving DecidableEq, Repr

/-- Scheme splitting of CPython `urlsplit`: if the text before the first
`:` is non-empty, starts with an ASCII letter and consists of scheme
characters, it is the (lowercased) scheme; otherwise there is no scheme. -/
def splitScheme (s : List Char) : List Char × List Char :=
  let pre := s.takeWhile (fun c => c != ':')
  if pre.length < s.length && !pre.isEmpty && (pre.headD ' ').isAlpha
      && pre.all isSchemeChar then
    (pre.map Char.toLower, s.drop (pre.length + 1))
  else
    ([], s)

/-- CPython `urllib.parse.uses_params` (3.11): the schemes for which
`urlparse` splits params off the path. -/
def uses_params : List (List Char) :=
  [[], ("ftp".data), ("hdl".data), ("prospero".data), ("http".data),
    ("imap".data), ("https".data), ("shttp".data), ("rtsp".data),
    ("rtsps".data), ("rtspu".data), ("sip".data), ("sips".data),
    ("mms".data), ("sftp".data), ("tel".data)]

/-- CPython `urllib.parse.uses_netloc` (3.11): the schemes for which
`urlunsplit` re-inserts `//` even when the netloc is empty. -/
def uses_netloc : List (List Char) :=
  [[], ("ftp".data), ("http".data), ("gopher".data), ("nntp".data),
    ("telnet".data), ("imap".data), ("wais".data), ("file".data),
    ("mms".data), ("https".data), ("shttp".data), ("snews".data),
    ("prospero".data), ("rtsp".data), ("rtsps".data), ("rtspu".data),
    ("rsync".data), ("svn".data), ("svn+ssh".data), ("sftp".data),
    ("nfs".data), ("git".data), ("git+ssh".data), ("ws".data),
    ("wss".data)]

/-- CPython `_splitparams` (guarded by its caller's `';' in url` test):
when the path contains a `;`, split the params off the last path segment
at the first `;` at or after the last `/` (or at the first `;` of the
whole path when it has no `/`). -/
def splitParams (p : List Char) : List Char × List Char :=
  if p.contains ';' then
    if p.contains '/' then
      let seg := (p.reverse.takeWhile (fun c => c != '/')).reverse
      if seg.contains ';' then
        (p.take (p.length - seg.length) ++ seg.takeWhile (fun c => c != ';'),
          (seg.dropWhile (fun c => c != ';')).drop 1)
      else
        (p, [])
    else
      (p.takeWhile (fun c => c != ';'), (p.dropWhile (fun c => c != ';')).drop 1)
  else
    (p, [])

/-- Model of CPython `urlparse` on ASCII inputs free of whitespace and
control characters (the only inputs `src/app.py` feeds it): splits the
scheme; if the remainder starts with `//`, takes the netloc up to the
first `/`, `?` or `#`, raising `ValueError` (modelled as `.error`) on a
netloc with an unmatched square bracket exactly as CPython does; then
splits the fragment at the first `#`, the query at the first `?` before
it, and — for schemes in `uses_params` — the params off the last path
segment.  An absent marker and a marker with an empty component both
give the empty component, as in CPython, whose `geturl` cannot
distinguish them.  The additional bracketed-host validation newer
CPython performs when a netloc contains a matched `[...]` pair (a full
IPv6/IPvFuture parse) is not modelled; the model is used on hosts
without brackets, plus the unmatched-bracket `ValueError`. -/
def urlparseE (s : List Char) : Except (List Char) UrlParts :=
  let ps := splitScheme s
  let scheme := ps.1
  let r := ps.2
  let hasNetloc := r.take 2 == ('/' :: '/' :: [])
  let netloc := if hasNetloc then
      (r.drop 2).takeWhile (fun c => !(c == '/' || c == '?' || c == '#'))
    else []
  let rest := if hasNetloc then
      (r.drop 2).dropWhile (fun c => !(c == '/' || c == '?' || c == '#'))
    else r
  if (netloc.contains '[' && !netloc.contains ']')
      || (netloc.contains ']' && !netloc.contains '[') then
    .error ("Invalid IPv6 URL".data)
  else
    let fragment := (rest.dropWhile (fun c => c != '#')).drop 1
    let preFrag := rest.takeWhile (fun c => c != '#')
    let query := (preFrag.dropWhile (fun c => c != '?')).drop 1
    let path0 := preFrag.takeWhile (fun c => c != '?')
    let pp := if uses_params.contains scheme then splitParams path0 else (path0, [])
    .ok ⟨scheme, netloc, pp.1, pp.2, query, fragment⟩

/-- Model of `ParseResult.geturl` (CPython 3.11 `urlunparse`):
re-attaches `;params` to the path when params is non-empty, inserts
`//netloc` (with a `/` before a relative path) when a netloc is present
— or, for a scheme in `uses_netloc`, when the path does not already
start with `//` — prepends `scheme:`, and appends `?query` and
`#fragment` only when the component is non-empty, so bare `;`, `?` or
`#` markers are dropped, exactly as CPython does. -/
def geturl (p : UrlParts) : List Char :=
  let url0 := if !p.params.isEmpty then p.path ++ ';' :: p.params else p.path
  let url1 :=
    if !p.netloc.isEmpty
        || (!p.scheme.isEmpty && uses_netloc.contains p.scheme
            && url0.take 2 != ('/' :: '/' :: [])) then
      ('/' :: '/' :: []) ++ p.netloc ++
        (if !url0.isEmpty && url0.take 1 != ('/' :: []) then '/' :: url0 else url0)
    else
      url0
  let url2 := if !p.scheme.isEmpty then p.scheme ++ ':' :: url1 else url1
  let url3 := if !p.query.isEmpty then url2 ++ '?' :: p.query else url2
  if !p.fragment.isEmpty then url3 ++ '#' :: p.fragment else url3

/-- Whether `urlparse` accepts the string without raising. -/
def parsesOK (s : List Char) : Bool :=
  match urlparseE s with
  | .ok _ => true
  | .error _ => false

/-- The string `parsed.geturl()` of a parsed URL, the form the scraper's
exclusion test matches against (empty on a parse error, which the
scraper's outer `except` turns into an aborted scrape). -/
def geturlD (s : List Char) : List Char :=
  match urlparseE s with
  | .ok p => geturl p
  | .error _ => []

/-- Python prefix test on character lists. -/
def startsWithL : List Char → List Char → Bool
  | [], _ => true
  | _ :: _, [] => false
  | a :: as, b :: bs => a == b && startsWithL as bs

/-- Python substring test (`pat in s` on strings). -/
def hasSubl (pat : List Char) : List Char → Bool
  | [] => pat.isEmpty
  | c :: rest => startsWithL pat (c :: rest) || hasSubl pat rest

/-- The literal `"http"` tested by `get_external_links`. -/
def httpL : List Char := ("http".data)

/-- Outcome of one attempt of the network stub inside
`fetch_with_retries`: a successful body, an exception of class
`aiohttp.ClientError` (the class the source's `except` clause catches:
connection failures, timeouts, and the non-2xx statuses surfaced by
`raise_for_status`), or any other exception (not caught by the clause,
e.g. a response-decoding error). -/
inductive AttemptResult where
  | ok (body : List Char)
  | clientError (e : List Char)
  | otherError (e : List Char)
deriving DecidableEq, Repr

/-- What a call of `fetch_with_retries` does: return a body, raise an
exception, or fall off the loop and return Python `None` (only possible
when `retries <= 0`). -/
inductive FetchOutcome where
  | success (body : List Char)
  | raised (e : List Char)
  | noneReturn
deriving DecidableEq, Repr

/-- The `for attempt in range(retries)` loop of `fetch_with_retries`,
recursing over the list of attempt indices.  Returns the outcome, the
number of attempts performed, and the list of sleep durations in order
(`backoff_factor ** attempt` is slept only when a `ClientError` occurs on
an attempt other than the last). -/
def fetchLoop (stub : Nat → AttemptResult) (backoff_factor retries : Nat) :
    List Nat → FetchOutcome × Nat × List Nat
  | [] => (.noneReturn, 0, [])
  | attempt :: restAttempts =>
    match stub attempt with
    | .ok body => (.success body, attempt + 1, [])
    | .otherError e => (.raised e, attempt + 1, [])
    | .clientError e =>
      if attempt < retries - 1 then
        let r := fetchLoop stub backoff_factor retries restAttempts
        (r.1, r.2.1, backoff_factor ^ attempt :: r.2.2)
      else
        (.raised e, attempt + 1, [])

/-- Model of `fetch_with_retries(url, session, retries, backoff_factor)`:
the url/session/network state is abstracted into `stub`, giving the result
of each 0-indexed attempt. -/
def fetch_with_retries (stub : Nat → AttemptResult) (retries backoff_factor : Nat) :
    FetchOutcome × Nat × List Nat :=
  fetchLoop stub backoff_factor retries (List.range retries)

/-- The result-collection loop of `scrape_google_search_results`: for each
extracted result link, `urlparse` it (a `ValueError` escapes the loop and
is caught by the function's outer `except`, modelled as `.error`), keep
the original link string unless any caller-supplied exclude string is a
substring of `parsed_link.geturl()`. -/
def scrapeLoop (exclude_websites : List (List Char)) :
    List (List Char) → Except (List Char) (List (List Char))
  | [] => .ok []
  | link :: rest =>
    match urlparseE link with
    | .error e => .error e
    | .ok parsed_link =>
      match scrapeLoop exclude_websites rest with
      | .error e => .error e
      | .ok tail =>
        if exclude_websites.any (fun website => hasSubl website (geturl parsed_link)) then
          .ok tail
        else
          .ok (link :: tail)

/-- Model of `scrape_google_search_results`: the fetch of the single
search URL and the BeautifulSoup extraction of the per-result links are
abstracted into `fetched` (an exception, or the ordered list of extracted
result links).  The returned `Bool` records whether `st.error` was shown;
on any exception inside the `try` block the function shows the error and
returns the empty list. -/
def scrape_google_search_results (fetched : Except (List Char) (List (List Char)))
    (exclude_websites : List (List Char)) : List (List Char) × Bool :=
  match fetched with
  | .error _ => ([], true)
  | .ok links =>
    match scrapeLoop exclude_websites links with
    | .error _ => ([], true)
    | .ok urls => (urls, false)

/-- The per-anchor filter of `get_external_links`, as a partial map from
the anchor's `href` attribute (`none` when absent) to the emitted link:
kept when `href` is truthy, contains the substring `"http"`, both `href`
and the page URL parse, the link's netloc differs from the page's and is
a member of `search_result_domains`; the emitted string is
`parsed_href.geturl()`. -/
def keepHref (pageUrl : List Char) (search_result_domains : List (List Char)) :
    Option (List Char) → Option (List Char)
  | none => none
  | some href =>
    if href.isEmpty || !hasSubl httpL href then none
    else
      match urlparseE href, urlparseE pageUrl with
      | .ok parsed_href, .ok parsed_website =>
        if parsed_href.netloc != parsed_website.netloc
            && search_result_domains.contains parsed_href.netloc then
          some (geturl parsed_href)
        else none
      | _, _ => none

/-- The anchor loop of `get_external_links`, over the document-ordered
list of anchor `href` attributes.  A `ValueError` from `urlparse` escapes
the loop and is caught by the function's outer `except Exception`, which
returns the links accumulated so far; the `Bool` records whether such an
exception occurred (and was logged). -/
def processLinksE (pageUrl : List Char) (search_result_domains : List (List Char)) :
    List (Option (List Char)) → List (List Char) × Bool
  | [] => ([], false)
  | none :: rest => processLinksE pageUrl search_result_domains rest
  | some href :: rest =>
    if href.isEmpty || !hasSubl httpL href then
      processLinksE pageUrl search_result_domains rest
    else
      match urlparseE href with
      | .error _ => ([], true)
      | .ok parsed_href =>
        match urlparseE pageUrl with
        | .error _ => ([], true)
        | .ok parsed_website =>
          if parsed_href.netloc != parsed_website.netloc
              && search_result_domains.contains parsed_href.netloc then
            let r := processLinksE pageUrl search_result_domains rest
            (geturl parsed_href :: r.1, r.2)
          else
            processLinksE pageUrl search_result_domains rest

/-- Model of `get_external_links(url, session, search_result_domains)`:
the fetch and the BeautifulSoup `find_all("a")` are abstracted into
`fetched` (an exception, or the document-ordered list of anchor `href`
attributes).  Returns the collected links plus a flag recording whether an
exception was swallowed and logged. -/
def get_external_links (url : List Char)
    (fetched : Except (List Char) (List (Option (List Char))))
    (search_result_domains : List (List Char)) : List (List Char) × Bool :=
  match fetched with
  | .error _ => ([], true)
  | .ok hrefs => processLinksE url search_result_domains hrefs

/-- Per-href side condition used to scope theorems about
`processLinksE`: an href that passes the truthiness and `"http"` substring
test must `urlparse` without raising (every candidate considered by the
loop parses). -/
def candOK (h : Option (List Char)) : Bool :=
  match h with
  | none => true
  | some href => href.isEmpty || !hasSubl httpL href || parsesOK href

/-- The eager set comprehension
`{urlparse(url).netloc for url in urls}` at the top of
`process_search_results`, evaluated left to right; a `ValueError` from
`urlparse` escapes `process_search_results` itself.  The collection is
kept as a list; only membership is ever used, matching Python set
membership. -/
def computeDomains : List (List Char) → Except (List Char) (List (List Char))
  | [] => .ok []
  | u :: rest =>
    match urlparseE u with
    | .error e => .error e
    | .ok p =>
      match computeDomains rest with
      | .error e => .error e
      | .ok ds => .ok (p.netloc :: ds)

/-- Position-indexed aggregation of `asyncio.gather`: task results arrive
tagged with their launch index in an arbitrary completion order, and the
output lists them by index.  This embeds the documented semantics of
`gather`, which places each task's result at the position of the
corresponding awaitable regardless of completion timing. -/
def gatherByIndex (n : Nat) (completions : List (Nat × List (List Char))) :
    List (List (List Char)) :=
  (List.range n).map (fun i =>
    match completions.find? (fun c => c.1 == i) with
    | some c => c.2
    | none => [])

/-- The default of the `concurrency_limit=5` parameter of
`process_search_results`. -/
def default_concurrency_limit : Nat := 5

set_option linter.unusedVariables false in
/-- Model of `process_search_results(urls, session, concurrency_limit)`:
computes the shared domain set eagerly, then runs one
`get_external_links` task per URL and gathers the results by launch
index.  `world` abstracts the network (fetch outcome and extracted hrefs
per page URL); `completionOrder` is the order in which the tasks finish,
which the semaphore and the network determine at run time — the
`concurrency_limit` parameter influences only that order (see `CrawlStep`
for the admission-gate model), never the aggregated value. -/
def process_search_results
    (world : List Char → Except (List Char) (List (Option (List Char))))
    (urls : List (List Char)) (concurrency_limit : Nat)
    (completionOrder : List Nat) :
    Except (List Char) (List (List (List Char))) :=
  match computeDomains urls with
  | .error e => .error e
  | .ok search_result_domains =>
    .ok (gatherByIndex urls.length
      (completionOrder.map (fun i =>
        (i, (get_external_links (urls.getD i []) (world (urls.getD i []))
              search_result_domains).1))))

/-- Scheduler state of the crawl phase: the value of the
`asyncio.Semaphore`, and the number of tasks that are waiting at
`async with semaphore`, actively fetching inside it, and finished. -/
structure CrawlSched where
  value : Nat
  waiting : Nat
  active : Nat
  finished : Nat
deriving DecidableEq, Repr

/-- One scheduler transition of `process_search_results`: a waiting task
is admitted only when the semaphore value is positive (decrementing it),
and a finishing task releases its slot (incrementing the value). -/
inductive CrawlStep : CrawlSched → CrawlSched → Prop where
  | acquire (v w a d : Nat) : CrawlStep ⟨v + 1, w + 1, a, d⟩ ⟨v, w, a + 1, d⟩
  | finish (v w a d : Nat) : CrawlStep ⟨v, w, a + 1, d⟩ ⟨v + 1, w, a, d + 1⟩

/-- Initial scheduler state: `asyncio.Semaphore(concurrency_limit)` fresh
at value `k`, all `n` tasks launched and waiting. -/
def initSched (k n : Nat) : CrawlSched := ⟨k, n, 0, 0⟩

/-- Reachability under scheduler transitions. -/
def CrawlReach : CrawlSched → CrawlSched → Prop :=
  Relation.ReflTransGen CrawlStep

/-- Predicate following claim C2's own words, for comparison with the
source's filter: the href is a syntactically complete URL containing a
scheme (parses, with non-empty scheme and netloc), its domain differs
from the page URL's domain, and its domain is a member of the known
result-domain set. -/
def specKeep_C2 (pageUrl : List Char) (search_result_domains : List (List Char))
    (href : List Char) : Bool :=
  match urlparseE href, urlparseE pageUrl with
  | .ok p, .ok pw =>
    !p.scheme.isEmpty && !p.netloc.isEmpty && p.netloc != pw.netloc
      && search_result_domains.contains p.netloc
  | _, _ => false

lemma fetchLoop_cons_ok (stub : Nat → AttemptResult) (backoff retries attempt : Nat)
    (rest : List Nat) (body : List Char) (h : stub attempt = .ok body) :
    fetchLoop stub backoff retries (attempt :: rest) =
      (.success body, attempt + 1, []) := by
  simp only [fetchLoop, h]

lemma fetchLoop_cons_other (stub : Nat → AttemptResult) (backoff retries attempt : Nat)
    (rest : List Nat) (e : List Char) (h : stub attempt = .otherError e) :
    fetchLoop stub backoff retries (attempt :: rest) =
      (.raised e, attempt + 1, []) := by
  simp only [fetchLoop, h]

lemma fetchLoop_cons_client (stub : Nat → AttemptResult) (backoff retries attempt : Nat)
    (rest : List Nat) (e : List Char) (h : stub attempt = .clientError e) :
    fetchLoop stub backoff retries (attempt :: rest) =
      (if attempt < retries - 1 then
        ((fetchLoop stub backoff retries rest).1,
          (fetchLoop stub backoff retries rest).2.1,
          backoff ^ attempt :: (fetchLoop stub backoff retries rest).2.2)
      else (.raised e, attempt + 1, [])) := by
  simp only [fetchLoop, h]

lemma fetchLoop_all_clientError (stub : Nat → AttemptResult) (backoff retries : Nat)
    (e : List Char) (he : stub (retries - 1) = .clientError e) :
    ∀ k a, 1 ≤ k → a + k = retries →
      (∀ i, a ≤ i → i < retries → ∃ e2, stub i = .clientError e2) →
      fetchLoop stub backoff retries (List.range' a k) =
        (.raised e, retries, (List.range' a (k - 1)).map (fun i => backoff ^ i)) := by
  intro k
  induction k with
  | zero => intro a hk; omega
  | succ k ih =>
    intro a _ hak hT
    rw [List.range'_succ]
    cases k with
    | zero =>
      have hstub : stub a = .clientError e := by
        have ha : a = retries - 1 := by omega
        rw [ha]; exact he
      rw [fetchLoop_cons_client stub backoff retries a _ e hstub]
      rw [if_neg (by omega : ¬ a < retries - 1)]
      simp only [Nat.add_sub_cancel, List.range'_zero, List.map_nil]
      rw [show a + 1 = retries from by omega]
    | succ k2 =>
      obtain ⟨ea, hea⟩ := hT a (le_refl a) (by omega)
      rw [fetchLoop_cons_client stub backoff retries a _ ea hea]
      rw [if_pos (by omega : a < retries - 1)]
      rw [ih (a + 1) (by omega) (by omega) (fun i h1 h2 => hT i (by omega) h2)]
      simp only [Nat.add_sub_cancel, List.range'_succ, List.map_cons]

lemma fetchLoop_stops_at (stub : Nat → AttemptResult) (backoff retries : Nat) :
    ∀ k a n, a + k = retries → a ≤ n → n < retries →
      (∀ i, a ≤ i → i < n → ∃ e2, stub i = .clientError e2) →
      ((∀ body, stub n = .ok body →
        fetchLoop stub backoff retries (List.range' a k) =
          (.success body, n + 1, (List.range' a (n - a)).map (fun i => backoff ^ i)))
      ∧ (∀ e, stub n = .otherError e →
        fetchLoop stub backoff retries (List.range' a k) =
          (.raised e, n + 1, (List.range' a (n - a)).map (fun i => backoff ^ i)))) := by
  intro k
  induction k with
  | zero => intro a n hak han hn; omega
  | succ k ih =>
    intro a n hak han hn hT
    rw [List.range'_succ]
    rcases Nat.eq_or_lt_of_le han with ha | ha
    · subst ha
      constructor
      · intro body hb
        rw [fetchLoop_cons_ok stub backoff retries a _ body hb]
        simp only [Nat.sub_self, List.range'_zero, List.map_nil]
      · intro e2 hb
        rw [fetchLoop_cons_other stub backoff retries a _ e2 hb]
        simp only [Nat.sub_self, List.range'_zero, List.map_nil]
    · obtain ⟨ea, hea⟩ := hT a (le_refl a) ha
      have hrec := ih (a + 1) n (by omega) (by omega) hn (fun i h1 h2 => hT i (by omega) h2)
      have hsl : (List.range' a (n - a)).map (fun i => backoff ^ i) =
          backoff ^ a :: (List.range' (a + 1) (n - (a + 1))).map (fun i => backoff ^ i) := by
        rw [show n - a = (n - (a + 1)) + 1 from by omega, List.range'_succ, List.map_cons]
      constructor
      · intro body hb
        rw [fetchLoop_cons_client stub backoff retries a _ ea hea]
        rw [if_pos (by omega : a < retries - 1), hrec.1 body hb, hsl]
      · intro e2 hb
        rw [fetchLoop_cons_client stub backoff retries a _ ea hea]
        rw [if_pos (by omega : a < retries - 1), hrec.2 e2 hb, hsl]

/-- C3: with `maxAttempts = retries >= 1`, a stub failing transiently on
every attempt makes `fetch_with_retries` surface the last error after
exactly `retries` attempts, sleeping `backoff ^ i` after attempt `i` for
`i < retries - 1` and never after the final attempt; a stub failing
transiently `n < retries` times and then succeeding yields the success
body after `n + 1` attempts with sleeps `backoff ^ 0, …, backoff ^ (n-1)`. -/
theorem C3_fetch_retry_behavior (stub : Nat → AttemptResult) (retries backoff : Nat)
    (hr : 1 ≤ retries) :
    ((∀ i, i < retries → ∃ e2, stub i = .clientError e2) →
      ∀ e, stub (retries - 1) = .clientError e →
        fetch_with_retries stub retries backoff =
          (.raised e, retries, (List.range (retries - 1)).map (fun i => backoff ^ i)))
    ∧ (∀ n body, n < retries → (∀ i, i < n → ∃ e2, stub i = .clientError e2) →
        stub n = .ok body →
        fetch_with_retries stub retries backoff =
          (.success body, n + 1, (List.range n).map (fun i => backoff ^ i))) := by
  constructor
  · intro hT e he
    unfold fetch_with_retries
    simp only [List.range_eq_range']
    have h := fetchLoop_all_clientError stub backoff retries e he retries 0 hr
      (by omega) (fun i _ h2 => hT i h2)
    simpa using h
  · intro n body hn hT hs
    unfold fetch_with_retries
    simp only [List.range_eq_range']
    have h := (fetchLoop_stops_at stub backoff retries retries 0 n (by omega) (by omega)
      hn (fun i _ h2 => hT i h2)).1 body hs
    simpa using h

/-- Stub for the C3 witness: every attempt raises `aiohttp.ClientError`. -/
def stubAlwaysFail : Nat → AttemptResult := fun _ => .clientError ("boom".data)

/-- Stub for the C3 witness: the first attempt raises
`aiohttp.ClientError`, every later attempt returns a body. -/
def stubFailOnce : Nat → AttemptResult := fun i =>
  if i = 0 then .clientError ("first".data) else .ok ("body".data)

/-- Witness for C3 at `retries = 3`, `backoff_factor = 2`. -/
theorem C3_fetch_retry_witness :
    fetch_with_retries stubAlwaysFail 3 2 = (.raised ("boom".data), 3, [1, 2]) ∧
    fetch_with_retries stubFailOnce 3 2 = (.success ("body".data), 2, [1]) := by
  constructor
  · have h := (C3_fetch_retry_behavior stubAlwaysFail 3 2 (by omega)).1
      (fun i _ => ⟨("boom".data), rfl⟩) ("boom".data) rfl
    rw [h]; decide
  · have h := (C3_fetch_retry_behavior stubFailOnce 3 2 (by omega)).2 1 ("body".data)
      (by omega) (fun i hi => ⟨("first".data), by
        have h0 : i = 0 := by omega
        rw [h0]; rfl⟩) rfl
    rw [h]; decide

/-- Concrete exception kinds a fetch attempt can raise in the source's
stack, with the class facts that decide the `except aiohttp.ClientError`
clause: `ClientConnectionError`, `ServerTimeoutError` and the
`ClientResponseError` raised by `raise_for_status` for every non-2xx
status are all `ClientError` subclasses, and so is `aiohttp.InvalidURL`
(the error for a malformed request URL, also a `ValueError`); a
`UnicodeDecodeError` from `response.text()` is not a `ClientError`. -/
inductive FetchErrorKind where
  | connectionError
  | timeoutError
  | httpStatusError (status : Nat)
  | invalidURL
  | decodeError
deriving DecidableEq, Repr

/-- Whether the exception kind is an instance of `aiohttp.ClientError`,
the class — and the only class — the source's `except` clause catches. -/
def isClientError : FetchErrorKind → Bool
  | .decodeError => false
  | _ => true

/-- Exception message of each kind (content immaterial to the claims). -/
def kindMsg : FetchErrorKind → List Char
  | .connectionError => ("connection error".data)
  | .timeoutError => ("timeout".data)
  | .httpStatusError _ => ("bad status".data)
  | .invalidURL => ("invalid url".data)
  | .decodeError => ("decode error".data)

/-- Predicate following claim C6's words: the errors the claim calls
transient, the only ones it says are retried — connection failure,
timeout, or a 5xx-equivalent server failure. -/
def specTransient_C6 : FetchErrorKind → Bool
  | .connectionError => true
  | .timeoutError => true
  | .httpStatusError s => decide (500 ≤ s) && decide (s < 600)
  | .invalidURL => false
  | .decodeError => false

/-- How one attempt's result reaches `fetch_with_retries`: a raised
exception is seen by the `except` clause according to its class. -/
def toAttempt : Except FetchErrorKind (List Char) → AttemptResult
  | .ok body => .ok body
  | .error k => if isClientError k then .clientError (kindMsg k) else .otherError (kindMsg k)

/-- C6 (amended): the retry clause is decided by exception class, not by
transience — a stub that always raises an exception of class
`aiohttp.ClientError` (which includes connection failures, timeouts,
every non-2xx status from `raise_for_status`, and `aiohttp.InvalidURL`
from a malformed input URL) is retried for all `retries` attempts with
backoff sleeps between them, while an exception outside that class
(e.g. an undecodable response body) is surfaced after a single attempt
with no sleep. -/
theorem C6_error_class_retry (k : FetchErrorKind) (retries backoff : Nat)
    (hr : 1 ≤ retries) :
    (isClientError k = true →
      fetch_with_retries (fun _ => toAttempt (.error k)) retries backoff =
        (.raised (kindMsg k), retries, (List.range (retries - 1)).map (fun i => backoff ^ i))) ∧
    (isClientError k = false →
      fetch_with_retries (fun _ => toAttempt (.error k)) retries backoff =
        (.raised (kindMsg k), 1, [])) := by
  constructor
  · intro hc
    have hs : (fun _ : Nat => toAttempt (.error k)) (retries - 1) =
        .clientError (kindMsg k) := by
      simp [toAttempt, hc]
    unfold fetch_with_retries
    simp only [List.range_eq_range']
    have h := fetchLoop_all_clientError (fun _ => toAttempt (.error k)) backoff retries
      (kindMsg k) hs retries 0 hr (by omega)
      (fun i _ _ => ⟨kindMsg k, by simp [toAttempt, hc]⟩)
    simpa using h
  · intro hc
    have hs : (fun _ : Nat => toAttempt (.error k)) 0 = .otherError (kindMsg k) := by
      simp [toAttempt, hc]
    unfold fetch_with_retries
    simp only [List.range_eq_range']
    have h := (fetchLoop_stops_at (fun _ => toAttempt (.error k)) backoff retries
      retries 0 0 (by omega) (by omega) (by omega)
      (fun i _ h2 => absurd h2 (by omega))).2 (kindMsg k) hs
    simpa using h

/-- Counterexample to C6 as stated: a malformed input URL raises
`aiohttp.InvalidURL`, a `ClientError` subclass, and a 404 from
`raise_for_status` raises `ClientResponseError`, also a `ClientError` —
neither is transient in the claim's sense (connection/timeout/5xx), yet
both are retried through all 3 attempts with backoff sleeps, not
surfaced after a single attempt. -/
theorem C6_class_counterexample :
    isClientError .invalidURL = true ∧
    specTransient_C6 .invalidURL = false ∧
    fetch_with_retries (fun _ => toAttempt (.error .invalidURL)) 3 2 =
      (.raised (kindMsg .invalidURL), 3, [1, 2]) ∧
    isClientError (.httpStatusError 404) = true ∧
    specTransient_C6 (.httpStatusError 404) = false ∧
    fetch_with_retries (fun _ => toAttempt (.error (.httpStatusError 404))) 3 2 =
      (.raised (kindMsg (.httpStatusError 404)), 3, [1, 2]) := by decide

/-- Witness for C6 (amended): a connection error is retried to
exhaustion; a decode error is surfaced after one attempt with no sleep. -/
theorem C6_error_class_witness :
    fetch_with_retries (fun _ => toAttempt (.error .connectionError)) 3 2 =
      (.raised (kindMsg .connectionError), 3, [1, 2]) ∧
    fetch_with_retries (fun _ => toAttempt (.error .decodeError)) 3 2 =
      (.raised (kindMsg .decodeError), 1, []) := by
  constructor
  · have h := (C6_error_class_retry .connectionError 3 2 (by omega)).1 rfl
    rw [h]; decide
  · exact (C6_error_class_retry .decodeError 3 2 (by omega)).2 rfl

/-- C10: with `retries = 0` (Python `range` is also empty for negative
arguments) the loop body never runs: no attempt, no sleep, and the
function falls through returning `None` — an outcome that is neither a
`Success` body nor a raised `Failure`. -/
theorem C10_zero_retries (stub : Nat → AttemptResult) (backoff : Nat) :
    fetch_with_retries stub 0 backoff = (.noneReturn, 0, []) ∧
    (∀ b, (FetchOutcome.noneReturn : FetchOutcome) ≠ .success b) ∧
    (∀ e, (FetchOutcome.noneReturn : FetchOutcome) ≠ .raised e) :=
  ⟨rfl, fun _ h => FetchOutcome.noConfusion h, fun _ h => FetchOutcome.noConfusion h⟩

lemma parsesOK_ok (s : List Char) (h : parsesOK s = true) : ∃ p, urlparseE s = .ok p := by
  unfold parsesOK at h
  rcases he : urlparseE s with e | p
  · rw [he] at h; cases h
  · exact ⟨p, rfl⟩

lemma processLinksE_cons_none (p : List Char) (ds : List (List Char))
    (rest : List (Option (List Char))) :
    processLinksE p ds (none :: rest) = processLinksE p ds rest := rfl

lemma processLinksE_cons_skip (p : List Char) (ds : List (List Char)) (href : List Char)
    (rest : List (Option (List Char))) (hc : (href.isEmpty || !hasSubl httpL href) = true) :
    processLinksE p ds (some href :: rest) = processLinksE p ds rest := by
  simp only [processLinksE, hc, if_true]

lemma processLinksE_cons_cand_err (p : List Char) (ds : List (List Char)) (href : List Char)
    (rest : List (Option (List Char))) (e : List Char)
    (hc : ¬ (href.isEmpty || !hasSubl httpL href) = true)
    (he : urlparseE href = .error e) :
    processLinksE p ds (some href :: rest) = ([], true) := by
  simp only [processLinksE]
  rw [if_neg hc, he]

lemma processLinksE_cons_cand_pageErr (p : List Char) (ds : List (List Char))
    (href : List Char) (rest : List (Option (List Char))) (ph : UrlParts) (e : List Char)
    (hc : ¬ (href.isEmpty || !hasSubl httpL href) = true)
    (h1 : urlparseE href = .ok ph) (h2 : urlparseE p = .error e) :
    processLinksE p ds (some href :: rest) = ([], true) := by
  simp only [processLinksE]
  rw [if_neg hc, h1, h2]

lemma processLinksE_cons_cand_ok (p : List Char) (ds : List (List Char)) (href : List Char)
    (rest : List (Option (List Char))) (ph pw : UrlParts)
    (hc : ¬ (href.isEmpty || !hasSubl httpL href) = true)
    (h1 : urlparseE href = .ok ph) (h2 : urlparseE p = .ok pw) :
    processLinksE p ds (some href :: rest) =
      (if ph.netloc != pw.netloc && ds.contains ph.netloc then
        (geturl ph :: (processLinksE p ds rest).1, (processLinksE p ds rest).2)
      else processLinksE p ds rest) := by
  simp only [processLinksE]
  rw [if_neg hc, h1, h2]

lemma keepHref_skip (p : List Char) (ds : List (List Char)) (href : List Char)
    (hc : (href.isEmpty || !hasSubl httpL href) = true) :
    keepHref p ds (some href) = none := by
  simp only [keepHref, hc, if_true]

lemma keepHref_cand (p : List Char) (ds : List (List Char)) (href : List Char)
    (ph pw : UrlParts) (hc : ¬ (href.isEmpty || !hasSubl httpL href) = true)
    (h1 : urlparseE href = .ok ph) (h2 : urlparseE p = .ok pw) :
    keepHref p ds (some href) =
      (if ph.netloc != pw.netloc && ds.contains ph.netloc then some (geturl ph)
      else none) := by
  simp only [keepHref]
  rw [if_neg hc, h1, h2]

lemma candOK_parses (href : List Char) (h1 : candOK (some href) = true)
    (hc : ¬ (href.isEmpty || !hasSubl httpL href) = true) : ∃ p, urlparseE href = .ok p := by
  apply parsesOK_ok
  have h1' : (href.isEmpty || !hasSubl httpL href || parsesOK href) = true := h1
  rw [Bool.eq_false_iff.mpr hc] at h1'
  simpa using h1'

lemma processLinksE_eq_filterMap (pageUrl : List Char) (ds : List (List Char))
    (pw : UrlParts) (hpage : urlparseE pageUrl = .ok pw) :
    ∀ hrefs, hrefs.all candOK = true →
      processLinksE pageUrl ds hrefs = (hrefs.filterMap (keepHref pageUrl ds), false) := by
  intro hrefs hall
  induction hrefs with
  | nil => rfl
  | cons h rest ih =>
    rw [List.all_cons, Bool.and_eq_true] at hall
    obtain ⟨h1, h2⟩ := hall
    cases h with
    | none =>
      rw [processLinksE_cons_none]
      simp only [List.filterMap_cons, keepHref]
      exact ih h2
    | some href =>
      by_cases hc : (href.isEmpty || !hasSubl httpL href) = true
      · rw [processLinksE_cons_skip pageUrl ds href rest hc]
        simp only [List.filterMap_cons, keepHref_skip pageUrl ds href hc]
        exact ih h2
      · obtain ⟨ph, hph⟩ := candOK_parses href h1 hc
        rw [processLinksE_cons_cand_ok pageUrl ds href rest ph pw hc hph hpage]
        simp only [List.filterMap_cons, keepHref_cand pageUrl ds href ph pw hc hph hpage]
        by_cases hcond : (ph.netloc != pw.netloc && ds.contains ph.netloc) = true
        · rw [if_pos hcond, if_pos hcond, ih h2]
        · rw [if_neg hcond, if_neg hcond, ih h2]

lemma processLinksE_take_filterMap (pageUrl : List Char) (ds : List (List Char)) :
    ∀ hrefs, ∃ t, (processLinksE pageUrl ds hrefs).1 ++ t =
      hrefs.filterMap (keepHref pageUrl ds) := by
  intro hrefs
  induction hrefs with
  | nil => exact ⟨[], rfl⟩
  | cons h rest ih =>
    cases h with
    | none =>
      rw [processLinksE_cons_none]
      simp only [List.filterMap_cons, keepHref]
      exact ih
    | some href =>
      by_cases hc : (href.isEmpty || !hasSubl httpL href) = true
      · rw [processLinksE_cons_skip pageUrl ds href rest hc]
        simp only [List.filterMap_cons, keepHref_skip pageUrl ds href hc]
        exact ih
      · rcases he : urlparseE href with e | ph
        · rw [processLinksE_cons_cand_err pageUrl ds href rest e hc he]
          exact ⟨_, List.nil_append _⟩
        · rcases hpw : urlparseE pageUrl with e | pw
          · rw [processLinksE_cons_cand_pageErr pageUrl ds href rest ph e hc he hpw]
            exact ⟨_, List.nil_append _⟩
          · rw [processLinksE_cons_cand_ok pageUrl ds href rest ph pw hc he hpw]
            obtain ⟨t, ht⟩ := ih
            by_cases hcond : (ph.netloc != pw.netloc && ds.contains ph.netloc) = true
            · refine ⟨t, ?_⟩
              rw [if_pos hcond]
              simp only [List.filterMap_cons, keepHref_cand pageUrl ds href ph pw hc he hpw,
                if_pos hcond, List.cons_append, ht]
            · refine ⟨t, ?_⟩
              rw [if_neg hcond]
              simp only [List.filterMap_cons, keepHref_cand pageUrl ds href ph pw hc he hpw,
                if_neg hcond, ht]

/-- C2 (amended): the extractor keeps an anchor if and only if its href
attribute is present, non-empty, contains the substring `"http"` (not: is
a complete URL with a scheme), parses, its netloc differs from the page
URL's netloc and its netloc is a member of the known result-domain set;
kept links are emitted in document order as `geturl` of the parsed href.
Scoped to pages whose URL and candidate hrefs parse without a
`ValueError`. -/
theorem C2_extractor_characterization (pageUrl : List Char) (ds : List (List Char))
    (hrefs : List (Option (List Char)))
    (hpage : parsesOK pageUrl = true) (hcand : hrefs.all candOK = true) :
    processLinksE pageUrl ds hrefs = (hrefs.filterMap (keepHref pageUrl ds), false) ∧
    (∀ href ph pw, urlparseE href = .ok ph → urlparseE pageUrl = .ok pw →
      keepHref pageUrl ds (some href) =
        (if href.isEmpty = false ∧ hasSubl httpL href = true ∧ ph.netloc ≠ pw.netloc
            ∧ ds.contains ph.netloc = true then some (geturl ph) else none)) := by
  constructor
  · obtain ⟨pw, hpw⟩ := parsesOK_ok pageUrl hpage
    exact processLinksE_eq_filterMap pageUrl ds pw hpw hrefs hcand
  · intro href ph pw h1 h2
    by_cases hc : (href.isEmpty || !hasSubl httpL href) = true
    · rw [keepHref_skip pageUrl ds href hc, if_neg]
      rintro ⟨hne, hsub, -, -⟩
      rcases Bool.or_eq_true_iff.mp hc with h | h
      · rw [h] at hne; exact Bool.noConfusion hne
      · cases hx : hasSubl httpL href
        · rw [hx] at hsub; exact Bool.noConfusion hsub
        · rw [hx] at h; exact Bool.noConfusion h
    · have hcf := Bool.or_eq_false_iff.mp (Bool.eq_false_iff.mpr hc)
      obtain ⟨hemp, hsubn⟩ := hcf
      have hsub : hasSubl httpL href = true := by
        cases hx : hasSubl httpL href
        · rw [hx] at hsubn; exact Bool.noConfusion hsubn
        · rfl
      rw [keepHref_cand pageUrl ds href ph pw hc h1 h2]
      by_cases hbc : (ph.netloc != pw.netloc && ds.contains ph.netloc) = true
      · obtain ⟨hne', hcont⟩ := (Bool.and_eq_true _ _).mp hbc
        rw [if_pos hbc, if_pos ⟨hemp, hsub, bne_iff_ne.mp hne', hcont⟩]
      · rw [if_neg hbc, if_neg]
        rintro ⟨-, -, hne, hcont⟩
        exact hbc ((Bool.and_eq_true _ _).mpr ⟨bne_iff_ne.mpr hne, hcont⟩)

/-- Counterexample to C2 as stated: `ftp://b.com/z` is a syntactically
complete URL with a scheme, its domain `b.com` differs from the page
domain `a.com` and is in the known-domain set, yet the code drops it —
the source tests `"http" in href`, not "has a scheme". -/
theorem C2_scheme_counterexample :
    specKeep_C2 ("https://a.com/x".data) [("a.com".data), ("b.com".data)]
      ("ftp://b.com/z".data) = true ∧
    (processLinksE ("https://a.com/x".data) [("a.com".data), ("b.com".data)]
      [some ("ftp://b.com/z".data)]).1 = [] := by decide

/-- Witness for C2 (amended) at the spec's own example: a page at
`https://a.com/x` linking to `https://a.com/y` and `https://b.com/z` with
known-domain set `{a.com, b.com}` yields exactly `https://b.com/z`. -/
theorem C2_extractor_witness :
    processLinksE ("https://a.com/x".data) [("a.com".data), ("b.com".data)]
      [some ("https://a.com/y".data), some ("https://b.com/z".data)] =
      ([("https://b.com/z".data)], false) := by
  have h := (C2_extractor_characterization ("https://a.com/x".data)
    [("a.com".data), ("b.com".data)]
    [some ("https://a.com/y".data), some ("https://b.com/z".data)]
    (by decide) (by decide)).1
  rw [h]
  decide

/-- C4 (amended): a fetch failure for a candidate page yields an empty
link list with the error swallowed; a parse failure during link
extraction yields the links collected before the failure — a prefix of
the fully filtered list, not necessarily empty.  In all cases the
function returns normally instead of raising, so sibling tasks and the
batch continue. -/
theorem C4_soft_failure (pageUrl : List Char) (ds : List (List Char))
    (fetched : Except (List Char) (List (Option (List Char)))) :
    (∀ e, fetched = .error e → get_external_links pageUrl fetched ds = ([], true)) ∧
    (∀ hrefs, fetched = .ok hrefs →
      ∃ t, (get_external_links pageUrl fetched ds).1 ++ t =
        hrefs.filterMap (keepHref pageUrl ds)) := by
  constructor
  · intro e he; rw [he]; rfl
  · intro hrefs he; rw [he]
    exact processLinksE_take_filterMap pageUrl ds hrefs

/-- Counterexample to C4 as stated: the page fetch succeeds, the first
anchor is kept, then `urlparse("http://[")` raises mid-loop; the code
logs the error and returns the partially filled list
`["https://b.com/z"]`, not an empty sequence. -/
theorem C4_partial_list_counterexample :
    (get_external_links ("https://a.com/x".data)
      (.ok [some ("https://b.com/z".data), some ("http://[".data)])
      [("a.com".data), ("b.com".data)]).2 = true ∧
    (get_external_links ("https://a.com/x".data)
      (.ok [some ("https://b.com/z".data), some ("http://[".data)])
      [("a.com".data), ("b.com".data)]).1 = [("https://b.com/z".data)] := by decide

/-- Witness for C4 (amended): a total fetch failure yields the empty list
with the error swallowed and logged. -/
theorem C4_soft_failure_witness :
    get_external_links ("https://a.com/x".data) (.error ("timeout".data))
      [("a.com".data)] = ([], true) :=
  (C4_soft_failure ("https://a.com/x".data) [("a.com".data)]
    (.error ("timeout".data))).1 ("timeout".data) rfl

lemma count_filterMap_list (f : Option (List Char) → Option (List Char))
    (l : List (Option (List Char))) (v : List Char) :
    (l.filterMap f).count v = l.countP (fun a => f a == some v) := by
  induction l with
  | nil => rfl
  | cons a l ih =>
    rcases hf : f a with _ | b
    · simp only [List.filterMap_cons, hf, List.countP_cons, ih]
      simp [show ((none : Option (List Char)) == some v) = false from rfl]
    · simp only [List.filterMap_cons, hf, List.countP_cons, List.count_cons, ih]
      by_cases hbv : b = v
      · subst hbv; simp
      · have hx : (b == v) = false := beq_eq_false_iff_ne.mpr hbv
        have hy : ((some b : Option (List Char)) == some v) = false :=
          beq_eq_false_iff_ne.mpr (by simpa using hbv)
        rw [hx, hy]

/-- C8: the extractor emits kept links in document order (it distributes
over document concatenation) and does not deduplicate — an anchor kept
`k` times contributes `k` occurrences, i.e. the multiplicity of each
output link equals the number of anchors mapped to it by the filter.
Scoped to pages whose URL and candidate hrefs parse. -/
theorem C8_order_and_multiplicity (pageUrl : List Char) (ds : List (List Char))
    (hrefs1 hrefs2 : List (Option (List Char)))
    (hpage : parsesOK pageUrl = true)
    (h1 : hrefs1.all candOK = true) (h2 : hrefs2.all candOK = true) :
    (processLinksE pageUrl ds (hrefs1 ++ hrefs2)).1 =
      (processLinksE pageUrl ds hrefs1).1 ++ (processLinksE pageUrl ds hrefs2).1 ∧
    ∀ v, ((processLinksE pageUrl ds hrefs1).1).count v =
      hrefs1.countP (fun h => keepHref pageUrl ds h == some v) := by
  obtain ⟨pw, hpw⟩ := parsesOK_ok pageUrl hpage
  have e1 := processLinksE_eq_filterMap pageUrl ds pw hpw hrefs1 h1
  have e2 := processLinksE_eq_filterMap pageUrl ds pw hpw hrefs2 h2
  have e12 := processLinksE_eq_filterMap pageUrl ds pw hpw (hrefs1 ++ hrefs2)
    (by rw [List.all_append, h1, h2]; rfl)
  constructor
  · rw [e1, e2, e12]
    exact List.filterMap_append hrefs1 hrefs2 (keepHref pageUrl ds)
  · intro v
    rw [e1]
    exact count_filterMap_list (keepHref pageUrl ds) hrefs1 v

/-- Witness for C8 with a duplicated kept link: `https://b.com/z` occurs
twice among the anchors and twice in the output. -/
theorem C8_order_witness :
    (processLinksE ("https://a.com/x".data) [("a.com".data), ("b.com".data)]
      ([some ("https://b.com/z".data)] ++
        [some ("https://a.com/y".data), some ("https://b.com/z".data)])).1 =
      (processLinksE ("https://a.com/x".data) [("a.com".data), ("b.com".data)]
        [some ("https://b.com/z".data)]).1 ++
      (processLinksE ("https://a.com/x".data) [("a.com".data), ("b.com".data)]
        [some ("https://a.com/y".data), some ("https://b.com/z".data)]).1 ∧
    ((processLinksE ("https://a.com/x".data) [("a.com".data), ("b.com".data)]
      [some ("https://b.com/z".data)]).1).count ("https://b.com/z".data) =
      List.countP (fun h => keepHref ("https://a.com/x".data)
        [("a.com".data), ("b.com".data)] h == some ("https://b.com/z".data))
        [some ("https://b.com/z".data)] := by
  have h := C8_order_and_multiplicity ("https://a.com/x".data)
    [("a.com".data), ("b.com".data)] [some ("https://b.com/z".data)]
    [some ("https://a.com/y".data), some ("https://b.com/z".data)]
    (by decide) (by decide) (by decide)
  exact ⟨h.1, h.2 ("https://b.com/z".data)⟩

lemma scrapeLoop_eq_filter (exclude : List (List Char)) :
    ∀ links, links.all parsesOK = true →
      scrapeLoop exclude links =
        .ok (links.filter (fun l => !exclude.any (fun w => hasSubl w (geturlD l)))) := by
  intro links hall
  induction links with
  | nil => rfl
  | cons link rest ih =>
    rw [List.all_cons] at hall
    obtain ⟨h1, h2⟩ := (Bool.and_eq_true _ _).mp hall
    obtain ⟨p, hp⟩ := parsesOK_ok link h1
    have hg : geturlD link = geturl p := by simp only [geturlD, hp]
    simp only [scrapeLoop, hp, ih h2, List.filter_cons, hg]
    cases hx : exclude.any (fun w => hasSubl w (geturl p))
    · simp [hx]
    · simp [hx]

/-- C7 (amended): on a successfully fetched result page whose extracted
result URLs `urlparse` accepts, a URL is omitted exactly when some
caller-supplied exclude string is a substring of `parsed.geturl()` — the
URL as re-serialized by `urlparse`, which lowercases the scheme and drops
bare `;`/`?`/`#` markers — not of the raw URL string; kept URLs are
returned as the original strings in their original order, and an empty
exclude list keeps every result. -/
theorem C7_exclude_matches_geturl (links : List (List Char))
    (hpl : links.all parsesOK = true) :
    (∀ exclude, scrape_google_search_results (.ok links) exclude =
      (links.filter (fun l => !exclude.any (fun w => hasSubl w (geturlD l))), false)) ∧
    scrape_google_search_results (.ok links) [] = (links, false) := by
  have hmain : ∀ exclude, scrape_google_search_results (.ok links) exclude =
      (links.filter (fun l => !exclude.any (fun w => hasSubl w (geturlD l))), false) := by
    intro exclude
    simp only [scrape_google_search_results, scrapeLoop_eq_filter exclude links hpl]
  refine ⟨hmain, ?_⟩
  rw [hmain []]
  simp

/-- Counterexample to C7 as stated: the exclusion test runs against
`parsed_link.geturl()`, not the full URL string.  `HTTPS://spam.com/x`
contains the exclude substring `HTTPS`, but `geturl` lowercases the
scheme so no exclude matches and the URL is kept; likewise
`https://spam.com/x?` contains `x?`, but `geturl` drops the bare `?` and
the URL is kept. -/
theorem C7_raw_url_counterexample :
    hasSubl ("HTTPS".data) ("HTTPS://spam.com/x".data) = true ∧
    scrape_google_search_results (.ok [("HTTPS://spam.com/x".data)])
      [("HTTPS".data)] = ([("HTTPS://spam.com/x".data)], false) ∧
    hasSubl ("x?".data) ("https://spam.com/x?".data) = true ∧
    scrape_google_search_results (.ok [("https://spam.com/x?".data)])
      [("x?".data)] = ([("https://spam.com/x?".data)], false) := by decide

/-- Witness for C7 (amended): with exclude substring `spam.com`, the
matching candidate is omitted and the other kept in order. -/
theorem C7_exclude_geturl_witness :
    scrape_google_search_results
      (.ok [("https://x.com/a".data), ("https://spam.com/b".data)])
      [("spam.com".data)] = ([("https://x.com/a".data)], false) := by
  have h := (C7_exclude_matches_geturl
    [("https://x.com/a".data), ("https://spam.com/b".data)] (by decide)).1
    [("spam.com".data)]
  rw [h]
  decide

/-- C9: if the fetch of the initial search-results page raises, the
scraper catches the exception, shows a user-visible error (`st.error`)
and returns the empty list — the failure never escapes the call. -/
theorem C9_total_fetch_failure (exclude : List (List Char)) (e : List Char) :
    scrape_google_search_results (.error e) exclude = ([], true) := rfl

lemma computeDomains_ok (urls : List (List Char)) (h : urls.all parsesOK = true) :
    ∃ ds, computeDomains urls = .ok ds := by
  induction urls with
  | nil => exact ⟨[], rfl⟩
  | cons u rest ih =>
    rw [List.all_cons] at h
    obtain ⟨h1, h2⟩ := (Bool.and_eq_true _ _).mp h
    obtain ⟨p, hp⟩ := parsesOK_ok u h1
    obtain ⟨ds, hds⟩ := ih h2
    refine ⟨p.netloc :: ds, ?_⟩
    simp only [computeDomains, hp, hds]

lemma find_tagged (g : Nat → List (List Char)) (i : Nat) :
    ∀ l : List Nat, i ∈ l →
      (l.map (fun j => (j, g j))).find? (fun c => c.1 == i) = some (i, g i) := by
  intro l hl
  induction l with
  | nil => cases hl
  | cons j rest ih =>
    by_cases hji : j = i
    · subst hji
      rw [List.map_cons]
      rw [List.find?_cons_of_pos _ (by simp)]
    · have hne : (((j, g j) : Nat × List (List Char)).1 == i) = false :=
        beq_eq_false_iff_ne.mpr hji
      rw [List.map_cons]
      rw [List.find?_cons_of_neg _ (by simp [hne])]
      rcases List.mem_cons.mp hl with h | h
      · exact absurd h.symm hji
      · exact ih h

lemma gatherByIndex_perm (n : Nat) (g : Nat → List (List Char)) (order : List Nat)
    (hord : order.Perm (List.range n)) :
    gatherByIndex n (order.map (fun i => (i, g i))) = (List.range n).map g := by
  unfold gatherByIndex
  apply List.map_congr_left
  intro i hi
  have hmem : i ∈ order := hord.mem_iff.mpr hi
  rw [find_tagged g i order hmem]

lemma map_range_getD (g : List Char → List (List Char)) :
    ∀ (l : List (List Char)),
      (List.range l.length).map (fun i => g (l.getD i [])) = l.map g := by
  intro l
  induction l with
  | nil => rfl
  | cons a rest ih =>
    rw [List.length_cons, List.range_succ_eq_map, List.map_cons, List.map_map]
    simp only [List.getD_cons_zero]
    have hcomp : ((fun i => g ((a :: rest).getD i [])) ∘ Nat.succ) =
        (fun i => g (rest.getD i [])) := by
      funext i; rfl
    rw [hcomp, ih, List.map_cons]

set_option linter.unusedVariables false in
/-- C1: for every non-empty list of candidate URLs (strings `urlparse`
accepts, per the CandidateURL data model) and any `concurrency_limit >= 1`,
the crawl returns one link-list per input URL — output length equals
input length and the i-th output is the extraction result for the i-th
input URL — for every completion order of the fetch tasks. -/
theorem C1_crawl_length_and_order
    (world : List Char → Except (List Char) (List (Option (List Char))))
    (urls : List (List Char)) (k : Nat) (completionOrder : List Nat)
    (hne : urls ≠ []) (hk : 1 ≤ k)
    (hord : completionOrder.Perm (List.range urls.length))
    (hparse : urls.all parsesOK = true) :
    ∃ ds out, computeDomains urls = .ok ds ∧
      process_search_results world urls k completionOrder = .ok out ∧
      out.length = urls.length ∧
      ∀ i, i < urls.length → out.getD i [] =
        (get_external_links (urls.getD i []) (world (urls.getD i [])) ds).1 := by
  obtain ⟨ds, hds⟩ := computeDomains_ok urls hparse
  refine ⟨ds, urls.map (fun u => (get_external_links u (world u) ds).1), hds, ?_, ?_, ?_⟩
  · simp only [process_search_results, hds]
    congr 1
    have hg := gatherByIndex_perm urls.length
      (fun i => (get_external_links (urls.getD i []) (world (urls.getD i [])) ds).1)
      completionOrder hord
    simp only [] at hg
    rw [hg]
    exact map_range_getD (fun u => (get_external_links u (world u) ds).1) urls
  · exact List.length_map urls _
  · intro i hi
    rw [List.getD_eq_getElem _ _ (by simpa using hi), List.getElem_map,
      List.getD_eq_getElem _ _ hi]

/-- World for the C1 witness, the spec's own scenario: `a.com`'s page
links to `b.com` and `c.com`; `b.com`'s page links only to `a.com`. -/
def crawlWorld2 : List Char → Except (List Char) (List (Option (List Char))) :=
  fun u => if u == ("https://a.com".data) then
      .ok [some ("https://b.com".data), some ("https://c.com".data)]
    else
      .ok [some ("https://a.com".data)]

/-- URLs for the C1 witness. -/
def crawlUrls2 : List (List Char) := [("https://a.com".data), ("https://b.com".data)]

/-- Witness for C1 at the spec scenario, with the tasks completing in
reverse launch order. -/
theorem C1_crawl_witness :
    ∃ ds out, computeDomains crawlUrls2 = .ok ds ∧
      process_search_results crawlWorld2 crawlUrls2 5 [1, 0] = .ok out ∧
      out.length = crawlUrls2.length ∧
      ∀ i, i < crawlUrls2.length → out.getD i [] =
        (get_external_links (crawlUrls2.getD i [])
          (crawlWorld2 (crawlUrls2.getD i [])) ds).1 :=
  C1_crawl_length_and_order crawlWorld2 crawlUrls2 5 [1, 0] (by decide) (by omega)
    (by rw [show List.range crawlUrls2.length = [0, 1] from rfl]
        exact List.Perm.swap 0 1 [])
    (by decide)

lemma crawlReach_invariant (k : Nat) :
    ∀ s s2, CrawlReach s s2 → s.value + s.active = k → s2.value + s2.active = k := by
  intro s s2 h
  induction h with
  | refl => exact fun h => h
  | tail hr hstep ih =>
    intro hinv
    have h2 := ih hinv
    cases hstep with
    | acquire v w a d => simp only at h2 ⊢; omega
    | finish v w a d => simp only at h2 ⊢; omega

/-- C5: from the initial state (semaphore at `k`, all `n` tasks waiting)
every state the crawl scheduler can reach has at most `k` tasks in active
execution — the semaphore admits a waiting task only when its value is
positive, i.e. when a slot is free; and the source's default
`concurrency_limit` is 5. -/
theorem C5_concurrency_bound :
    (∀ k n s, CrawlReach (initSched k n) s → s.active ≤ k) ∧
    default_concurrency_limit = 5 := by
  constructor
  · intro k n s h
    have hinv := crawlReach_invariant k (initSched k n) s h rfl
    omega
  · rfl

/-- Witness for C5: from `initSched 2 3` one admission step reaches the
state with one active task, and the bound gives `active ≤ 2` there. -/
theorem C5_concurrency_witness :
    CrawlReach (initSched 2 3) ⟨1, 2, 1, 0⟩ ∧
    (⟨1, 2, 1, 0⟩ : CrawlSched).active ≤ 2 := by
  have hr : CrawlReach (initSched 2 3) ⟨1, 2, 1, 0⟩ :=
    Relation.ReflTransGen.single (CrawlStep.acquire 1 2 0 0)
  exact ⟨hr, C5_concurrency_bound.1 2 3 ⟨1, 2, 1, 0⟩ hr⟩
